import Mathlib

/-!
# PrizePicker slip-selection engine: a shallow embedding

This file embeds the slip-selection core of the PrizePicker repository
(`find_bets.py`, plus the odds normalizer `calculate_novig` shared by
`scraper.py` and `fanduelScraper.py`) into Lean and proves the spec's
testable properties about it.

Modelling conventions:

* Python floats are modelled as rationals (`ℚ`).  `round(x, 2)` is modelled
  by `round2` (round to nearest centi-unit, `round` = half-up on exact
  rationals; Python rounds the nearest binary double, half-to-even — every
  concrete value used in a theorem below is chosen away from ties, where the
  two semantics agree).
* A CSV row of the concatenated props table is a `Row`.  The two line
  columns are `Option ℚ`: `none` stands for a sentinel ("NL", "FF", "nan")
  or an unparseable string, both of which make `find_bets.py` skip the row
  (the former via the explicit check, the latter via the `except: continue`
  handler).  The fair-probability columns are the parsed numeric values
  (a missing column is read as `0` by `row.get(..., 0)`).
* `random.sample` draws of the Monte-Carlo strategy are passed in
  explicitly as a list `draws` of samples; `random.sample` guarantees each
  draw has length `target_size`, which theorems take as a hypothesis.
* Python's `list.sort(key=..., reverse=True)` is a stable descending sort;
  by uniqueness of stable sorting it is extensionally equal to
  `List.insertionSort` with the non-strict "greater or equal" relation,
  which is what the embedding uses.
* Python `set` values (`Leg_Ids`, `used_prop_ids`) are modelled as
  deduplicated lists; only membership is ever used.
-/

/-- One row of the concatenated props table read by `get_slips`
(`all_props` in `find_bets.py`). -/
structure Row where
  fdLine : Option ℚ
  ppLine : Option ℚ
  fairOver : ℚ
  fairUnder : ℚ
  playerImage : String
  teamRaw : String
  player : String
  sport : String
  propType : String
  deriving DecidableEq

/-- A candidate bet (`bet_info` dict in `find_bets.py`). -/
structure Candidate where
  id : String
  player : String
  initials : String
  playerImage : String
  team : String
  position : String
  sport : String
  propType : String
  fanDuelLine : ℚ
  prizePicksLine : ℚ
  lineDiff : ℚ
  betDirection : String
  fairWinPct : ℚ
  edge : ℚ
  deriving DecidableEq

/-- A slip (`slip` dict in `find_bets.py`).  The size-1 path stores
`Is_Fallback: True`; the other paths do not set the key, modelled as
`false`. -/
structure Slip where
  avgWinPct : ℚ
  totalEdge : ℚ
  legs : List Candidate
  legIds : List String
  isFallback : Bool
  deriving DecidableEq

/-- Python `round(x, 2)`. -/
def round2 (q : ℚ) : ℚ := (round (100 * q) : ℤ) / 100

/-- Split a character list into whitespace-separated words
(Python `str.split()` restricted to the space character). -/
def wordsAux : List Char → List Char → List (List Char)
  | [], acc => if acc.isEmpty then [] else [acc.reverse]
  | c :: cs, acc =>
    if c = ' ' then
      if acc.isEmpty then wordsAux cs [] else acc.reverse :: wordsAux cs []
    else wordsAux cs (c :: acc)

/-- Python `"".join([n[0] for n in player_name.split()[:2]]).upper() if
player_name else "??"` from `find_bets.py`. -/
def initialsOf (playerName : String) : String :=
  if playerName = "" then "??"
  else String.mk (((wordsAux playerName.toList []).take 2).map
    (fun w => (w.headD 'A').toUpper))

/-- Python `str.split(" - ")` on the character list. -/
def splitTeamAux : List Char → List Char → List String
  | [], acc => [String.mk acc.reverse]
  | ' ' :: '-' :: ' ' :: rest, acc => String.mk acc.reverse :: splitTeamAux rest []
  | c :: rest, acc => splitTeamAux rest (c :: acc)

/-- Python `team_raw.split(" - ")`. -/
def splitTeam (s : String) : List String := splitTeamAux s.toList []

/-- Minimum probability to even consider a leg (`min_candidate_prob`). -/
def minCandidateProb : ℚ := 53.5

/-- Build the `bet_info` dictionary of `find_bets.py` for a row that passed
the admission checks. -/
def mkCandidate (row : Row) (fdLine ppLine : ℚ) (betType : String)
    (fairProb : ℚ) : Candidate :=
  { id := row.player ++ "_" ++ row.propType
    player := row.player
    initials := initialsOf row.player
    playerImage :=
      if row.playerImage = "nan" ∨ row.playerImage = "None" ∨
          row.playerImage = "" ∨ row.playerImage = "NL" then ""
      else row.playerImage
    team := (splitTeam row.teamRaw).headD row.teamRaw
    position := (splitTeam row.teamRaw).getD 1 "N/A"
    sport := row.sport
    propType := row.propType
    fanDuelLine := fdLine
    prizePicksLine := ppLine
    lineDiff := |fdLine - ppLine|
    betDirection := betType
    fairWinPct := fairProb
    edge := round2 (fairProb - 54.21) }

/-- The candidate-extraction step of `get_slips` for one row: skip the row
unless both lines are present, the lines are within `0.5`, and one side's
fair probability clears `min_candidate_prob` (OVER checked first). -/
def candidateOfRow (row : Row) : Option Candidate :=
  match row.fdLine, row.ppLine with
  | some fdLine, some ppLine =>
    if |fdLine - ppLine| ≤ 0.5 then
      if minCandidateProb < row.fairOver then
        some (mkCandidate row fdLine ppLine "OVER" row.fairOver)
      else if minCandidateProb < row.fairUnder then
        some (mkCandidate row fdLine ppLine "UNDER" row.fairUnder)
      else none
    else none
  | _, _ => none

/-- The full candidate pool extracted from the table. -/
def extractCandidates (table : List Row) : List Candidate :=
  table.filterMap candidateOfRow

/-- The `THRESHOLDS` constant of `find_bets.py`. -/
def THRESHOLDS (style : String) (size : ℕ) : Option ℚ :=
  if style = "power" then
    if size = 2 then some 57.74
    else if size = 3 then some 55.05
    else if size = 4 then some 56.23
    else if size = 5 then some 54.93
    else if size = 6 then some 54.66
    else none
  else if style = "flex" then
    if size = 3 then some 57.74
    else if size = 4 then some 55.04
    else if size = 5 then some 54.26
    else if size = 6 then some 54.21
    else none
  else none

/-- The lookup `THRESHOLDS.get(style, ...).get(target_size, 54.21)` with an
empty-table fallback at the first step. -/
def thresholdFor (style : String) (size : ℕ) : ℚ :=
  (THRESHOLDS style size).getD 54.21

/-- Python `pool.sort(key=..., reverse=True)` on fair win probability: stable
descending sort by fair win probability. -/
def sortByFairDesc (l : List Candidate) : List Candidate :=
  l.insertionSort (fun a b => b.fairWinPct ≤ a.fairWinPct)

/-- Python `all_valid_slips.sort(key=..., reverse=True)` on `Avg_Win_Pct`. -/
def sortByAvgDesc (l : List Slip) : List Slip :=
  l.insertionSort (fun a b => b.avgWinPct ≤ a.avgWinPct)

/-- The single-leg pseudo-slip of the size-1 view. -/
def fallbackSlip (p : Candidate) : Slip :=
  { avgWinPct := p.fairWinPct
    totalEdge := p.edge
    legs := [p]
    legIds := [p.id]
    isFallback := true }

/-- Mean fair win probability of a combination, as computed by the code:
the sum of the legs divided by `target_size`. -/
def avgOf (k : ℕ) (legs : List Candidate) : ℚ :=
  (legs.map Candidate.fairWinPct).sum / (k : ℚ)

/-- The slip dictionary built by strategies B and C for an accepted
combination. -/
def mkSlip (t : ℚ) (k : ℕ) (combo : List Candidate) : Slip :=
  { avgWinPct := round2 (avgOf k combo)
    totalEdge := round2 (avgOf k combo - t)
    legs := combo
    legIds := (combo.map Candidate.id).dedup
    isFallback := false }

/-- The slip dictionary built by strategy A for a matched pair. -/
def pairSlip (t : ℚ) (leg1 leg2 : Candidate) : Slip :=
  { avgWinPct := round2 ((leg1.fairWinPct + leg2.fairWinPct) / 2)
    totalEdge := round2 ((leg1.fairWinPct + leg2.fairWinPct) / 2 - t)
    legs := [leg1, leg2]
    legIds := ([leg1.id, leg2.id]).dedup
    isFallback := false }

/-- Strategy A's inner scan: `for i in range(len(search_pool)-1, -1, -1)`,
looking from the bottom of the pool upward for the first `leg2` whose pair
with `leg1` clears the threshold and is on a different team.  Returns the
match and the pool with that element removed (`search_pool.pop(i)`). -/
def scanRev (leg1 : Candidate) (t : ℚ) :
    List Candidate → Option (Candidate × List Candidate)
  | [] => none
  | c :: rest =>
    match scanRev leg1 t rest with
    | some (leg2, rest') => some (leg2, c :: rest')
    | none =>
      if t < (leg1.fairWinPct + c.fairWinPct) / 2 ∧ leg1.team ≠ c.team then
        some (c, rest)
      else none

/-- Strategy A's `while len(search_pool) >= 2` loop, with an explicit fuel
argument standing for the loop counter (each iteration pops at least
`leg1`, so fuel `pool.length` suffices). -/
def greedyLoop (t : ℚ) : ℕ → List Candidate → List Slip
  | 0, _ => []
  | _, [] => []
  | fuel + 1, leg1 :: rest =>
    if rest = [] then []
    else
      match scanRev leg1 t rest with
      | some (leg2, rest') => pairSlip t leg1 leg2 :: greedyLoop t fuel rest'
      | none => greedyLoop t fuel rest

/-- Strategy A: greedy 2-man power-play pairing. -/
def greedyPairs (t : ℚ) (pool : List Candidate) : List Slip :=
  greedyLoop t pool.length pool

/-- All combinations of size `k` of a list, in `itertools.combinations`
order. -/
def combinations {α : Type} : ℕ → List α → List (List α)
  | 0, _ => [[]]
  | _ + 1, [] => []
  | k + 1, x :: xs => (combinations k xs).map (x :: ·) ++ combinations (k + 1) xs

/-- Strategy B: brute-force enumeration with the two safety bounds.
`examLeft` is the remaining examination budget (`3000000 - limit_check`),
`slipsLeft` the remaining collection budget (`max_slips` minus slips
collected).  When `target_size = 0` the first examined combination divides
by zero, which in Python escapes `get_slips` as an uncaught
`ZeroDivisionError`; the embedding returns `Except.error` there. -/
def stratB (t : ℚ) (k : ℕ) :
    List (List Candidate) → ℕ → ℕ → Except String (List Slip)
  | [], _, _ => .ok []
  | _ :: _, 0, _ => .ok []
  | combo :: rest, examLeft + 1, slipsLeft =>
    if k = 0 then .error "ZeroDivisionError: division by zero"
    else
      if avgOf k combo ≤ t then stratB t k rest examLeft slipsLeft
      else if (combo.map Candidate.player).dedup.length ≠ k then
        stratB t k rest examLeft slipsLeft
      else if (combo.map Candidate.team).dedup.length < 2 then
        stratB t k rest examLeft slipsLeft
      else if slipsLeft ≤ 1 then .ok [mkSlip t k combo]
      else (stratB t k rest examLeft (slipsLeft - 1)).map (mkSlip t k combo :: ·)

/-- Strategy C's acceptance loop over the sequence of random draws
(identical acceptance test to strategy B, no collection caps). -/
def stratCLoop (t : ℚ) (k : ℕ) : List (List Candidate) → List Slip
  | [] => []
  | combo :: rest =>
    if avgOf k combo ≤ t then stratCLoop t k rest
    else if (combo.map Candidate.player).dedup.length ≠ k then stratCLoop t k rest
    else if (combo.map Candidate.team).dedup.length < 2 then stratCLoop t k rest
    else mkSlip t k combo :: stratCLoop t k rest

/-- Strategy C: Monte-Carlo sampling.  If the pool is smaller than the
target size, `random.sample` raises `ValueError` on the first trial, which
the code catches and turns into an immediate `break`. -/
def stratC (t : ℚ) (k : ℕ) (pool : List Candidate)
    (draws : List (List Candidate)) : List Slip :=
  if pool.length < k then [] else stratCLoop t k draws

/-- The greedy non-overlap selection walk of `get_slips`: `used` is
`used_prop_ids`, `n` is `len(final_slips)`, the cap is `limit = 1000`. -/
def greedySelect : List Slip → List String → ℕ → List Slip
  | [], _, _ => []
  | s :: rest, used, n =>
    if s.legIds.all (fun i => decide (i ∉ used)) then
      if 1000 ≤ n + 1 then [s]
      else s :: greedySelect rest (used ++ s.legIds) (n + 1)
    else
      if 1000 ≤ n then []
      else greedySelect rest used n

/-- The final sort + greedy dedup applied to every multi-leg strategy's
raw slip list. -/
def rankSlips (l : List Slip) : List Slip :=
  greedySelect (sortByAvgDesc l) [] 0

/-- The function `get_slips(target_size, style)` on a concatenated props table.
The CSV loading is upstream I/O; `table` is the `all_props` DataFrame.
`draws` supplies the Monte-Carlo samples (unused for sizes below 5). -/
def getSlips (table : List Row) (targetSize : ℕ) (style : String)
    (draws : List (List Candidate)) : Except String (List Slip) :=
  let candidates := extractCandidates table
  if candidates.isEmpty then .ok []
  else
    if targetSize = 1 then
      .ok (((sortByFairDesc candidates).take 51).map fallbackSlip)
    else
      let threshold := thresholdFor style targetSize
      let pool := sortByFairDesc candidates
      if targetSize = 2 ∧ style = "power" then
        .ok (rankSlips (greedyPairs threshold pool))
      else if targetSize < 5 then
        (stratB threshold targetSize (combinations targetSize pool) 3000000 2000).map
          rankSlips
      else
        .ok (rankSlips (stratC threshold targetSize pool draws))

/-- The `/` route handler: style falls back to `"power"` when unrecognized,
an unparseable size string falls back to `6` (`sizeParsed = none`), and a
size of `1` forces the `"props"` style.  An integer-valued size is passed
through unchanged. -/
def dashboard (table : List Row) (styleArg : String) (sizeParsed : Option ℕ)
    (draws : List (List Candidate)) : Except String (List Slip) :=
  let size := sizeParsed.getD 6
  let style0 :=
    if styleArg = "power" ∨ styleArg = "flex" ∨ styleArg = "props" then styleArg
    else "power"
  let style := if size = 1 then "props" else style0
  getSlips table size style draws

/-- The inner `get_implied` of `calculate_novig` (identical in `scraper.py` and
`fanduelScraper.py`): positive American odds imply `100/(o+100)`,
non-positive odds imply `|o|/(|o|+100)`. -/
def getImplied (o : ℤ) : ℚ :=
  if 0 < o then 100 / ((o : ℚ) + 100)
  else |(o : ℚ)| / (|(o : ℚ)| + 100)

/-- Python `calculate_novig(over_odds, under_odds)`: normalize the two implied
probabilities by their sum; a zero sum raises `ZeroDivisionError` in
Python, caught and turned into `(0.0, 0.0)`. -/
def calculate_novig (overOdds underOdds : ℤ) : ℚ × ℚ :=
  let probOver := getImplied overOdds
  let probUnder := getImplied underOdds
  let marketSum := probOver + probUnder
  if marketSum = 0 then (0, 0)
  else (probOver / marketSum, probUnder / marketSum)

/-- Two slips are leg-disjoint when no candidate id is in both leg-id
sets. -/
def legDisjoint (s1 s2 : Slip) : Prop := ∀ i ∈ s1.legIds, i ∉ s2.legIds

instance (s1 s2 : Slip) : Decidable (legDisjoint s1 s2) :=
  decidable_of_iff (∀ i ∈ s1.legIds, i ∉ s2.legIds) Iff.rfl

/-- Extract the result list of a successful run (empty on error). -/
def okResult (e : Except String (List Slip)) : List Slip :=
  e.toOption.getD []

instance {e a : Type} [DecidableEq e] [DecidableEq a] : DecidableEq (Except e a)
  | .ok x, .ok y =>
    if h : x = y then .isTrue (by rw [h]) else .isFalse (by intro hc; exact h (Except.ok.inj hc))
  | .error x, .error y =>
    if h : x = y then .isTrue (by rw [h]) else .isFalse (by intro hc; exact h (Except.error.inj hc))
  | .ok _, .error _ => .isFalse (by intro hc; exact Except.noConfusion hc)
  | .error _, .ok _ => .isFalse (by intro hc; exact Except.noConfusion hc)

/-- Build a concrete well-formed row (both lines present and equal, OVER
side carrying the given fair probability).  Used only by the concrete
witnesses and counterexamples below. -/
def mkRow (playerName teamName propName : String) (line fairOverPct : ℚ) : Row :=
  { fdLine := some line
    ppLine := some line
    fairOver := fairOverPct
    fairUnder := 40
    playerImage := ""
    teamRaw := teamName
    player := playerName
    sport := "NBA"
    propType := propName }

def wRowA : Row := mkRow "Alice" "AAA" "Points" 10 60

def wRowB : Row := mkRow "Bob" "BBB" "Points" 5 58

def wTable : List Row := [wRowA, wRowB]

/-- The candidate `get_slips` derives from `wRowA`. -/
def wCandA : Candidate :=
  { id := "Alice_Points"
    player := "Alice"
    initials := "A"
    playerImage := ""
    team := "AAA"
    position := "N/A"
    sport := "NBA"
    propType := "Points"
    fanDuelLine := 10
    prizePicksLine := 10
    lineDiff := 0
    betDirection := "OVER"
    fairWinPct := 60
    edge := 5.79 }

/-- The candidate `get_slips` derives from `wRowB`. -/
def wCandB : Candidate :=
  { id := "Bob_Points"
    player := "Bob"
    initials := "B"
    playerImage := ""
    team := "BBB"
    position := "N/A"
    sport := "NBA"
    propType := "Points"
    fanDuelLine := 5
    prizePicksLine := 5
    lineDiff := 0
    betDirection := "OVER"
    fairWinPct := 58
    edge := 3.79 }

/-- The single slip returned by `get_slips(2, "flex")` on `wTable`. -/
def wSlipFlex2 : Slip :=
  { avgWinPct := 59
    totalEdge := 4.79
    legs := [wCandA, wCandB]
    legIds := ["Alice_Points", "Bob_Points"]
    isFallback := false }

/-- Two candidates whose fair probabilities average to `54.214`: above the
default threshold `54.21`, but rounding the average back to two decimals
yields exactly `54.21`. -/
def c1Table : List Row :=
  [mkRow "Alpha" "TA" "Points" 10 54.20, mkRow "Beta" "TB" "Points" 5 54.228]

/-- The same player on two rows with different team strings: the greedy
pairing strategy (which only compares teams) will pair the player with
themselves. -/
def c2Table : List Row :=
  [mkRow "Ace" "T1" "Points" 10 60, mkRow "Ace" "T2" "Assists" 5 59]

/-- Two rows with the same player and the same prop type, hence the same
candidate id `"Ace_Points"`; the size-1 view applies no dedup. -/
def c3Table : List Row :=
  [mkRow "Ace" "T1" "Points" 10 60, mkRow "Ace" "T2" "Points" 5 59]

/-! ## Basic lemmas about the embedding's building blocks -/

instance : IsTotal Candidate (fun a b => b.fairWinPct ≤ a.fairWinPct) :=
  ⟨fun a b => le_total b.fairWinPct a.fairWinPct⟩

instance : IsTrans Candidate (fun a b => b.fairWinPct ≤ a.fairWinPct) :=
  ⟨fun _ _ _ hab hbc => le_trans hbc hab⟩

instance : IsTotal Slip (fun a b => b.avgWinPct ≤ a.avgWinPct) :=
  ⟨fun a b => le_total b.avgWinPct a.avgWinPct⟩

instance : IsTrans Slip (fun a b => b.avgWinPct ≤ a.avgWinPct) :=
  ⟨fun _ _ _ hab hbc => le_trans hbc hab⟩

theorem mem_sortByFairDesc {l : List Candidate} {x : Candidate} :
    x ∈ sortByFairDesc l ↔ x ∈ l :=
  List.mem_insertionSort _

theorem sortByFairDesc_sorted (l : List Candidate) :
    List.Sorted (fun a b => b.fairWinPct ≤ a.fairWinPct) (sortByFairDesc l) :=
  List.sorted_insertionSort _ l

theorem length_sortByFairDesc (l : List Candidate) :
    (sortByFairDesc l).length = l.length :=
  List.length_insertionSort _ l

theorem mem_sortByAvgDesc {l : List Slip} {x : Slip} :
    x ∈ sortByAvgDesc l ↔ x ∈ l :=
  List.mem_insertionSort _

/-- If a rational strictly exceeds an integer number of centi-units, its
2-decimal rounding still weakly exceeds it (any round-to-nearest scheme
satisfies this, so the bound is robust to Python's half-to-even ties). -/
theorem round2_ge (z : ℤ) (m : ℚ) (h : (z : ℚ) / 100 < m) :
    (z : ℚ) / 100 ≤ round2 m := by
  unfold round2
  have hzle : z ≤ round (100 * m) := by
    rw [round_eq]
    refine Int.le_floor.mpr ?_
    linarith
  have hc : (z : ℚ) ≤ ((round (100 * m) : ℤ) : ℚ) := by exact_mod_cast hzle
  linarith

/-- Every threshold the code can look up is an exact number of
centi-units. -/
theorem thresholdFor_centi (style : String) (k : ℕ) :
    ∃ z : ℤ, thresholdFor style k = (z : ℚ) / 100 := by
  unfold thresholdFor THRESHOLDS
  split_ifs
  · exact ⟨5774, by norm_num [Option.getD]⟩
  · exact ⟨5505, by norm_num [Option.getD]⟩
  · exact ⟨5623, by norm_num [Option.getD]⟩
  · exact ⟨5493, by norm_num [Option.getD]⟩
  · exact ⟨5466, by norm_num [Option.getD]⟩
  · exact ⟨5421, by norm_num [Option.getD]⟩
  · exact ⟨5774, by norm_num [Option.getD]⟩
  · exact ⟨5504, by norm_num [Option.getD]⟩
  · exact ⟨5426, by norm_num [Option.getD]⟩
  · exact ⟨5421, by norm_num [Option.getD]⟩
  · exact ⟨5421, by norm_num [Option.getD]⟩
  · exact ⟨5421, by norm_num [Option.getD]⟩

theorem avgOf_pair (l1 l2 : Candidate) :
    avgOf 2 [l1, l2] = (l1.fairWinPct + l2.fairWinPct) / 2 := by
  simp [avgOf]

theorem dedup_pair_ne {α : Type} [DecidableEq α] {a b : α} (h : a ≠ b) :
    ([a, b]).dedup.length = 2 := by
  have hb : ([b] : List α).dedup = [b] := by
    rw [List.dedup_cons_of_not_mem (List.not_mem_nil b), List.dedup_nil]
  rw [List.dedup_cons_of_not_mem (by simp [h]), hb]
  simp

theorem nodup_of_dedup_length {α : Type} [DecidableEq α] (l : List α)
    (h : l.dedup.length = l.length) : l.Nodup :=
  List.dedup_eq_self.mp (List.Sublist.eq_of_length (List.dedup_sublist l) h)

/-! ## Strategy A: the reverse scan and the pairing loop -/

theorem scanRev_sound (leg1 : Candidate) (t : ℚ) :
    ∀ (l : List Candidate) (leg2 : Candidate) (rest : List Candidate),
      scanRev leg1 t l = some (leg2, rest) →
      t < (leg1.fairWinPct + leg2.fairWinPct) / 2 ∧ leg1.team ≠ leg2.team := by
  intro l
  induction l with
  | nil => intro leg2 rest h; simp [scanRev] at h
  | cons c cs ih =>
    intro leg2 rest h
    rw [scanRev] at h
    rcases hrec : scanRev leg1 t cs with - | ⟨l2, r2⟩
    · rw [hrec] at h
      have h' : (if t < (leg1.fairWinPct + c.fairWinPct) / 2 ∧ leg1.team ≠ c.team
          then some (c, cs) else none) = some (leg2, rest) := h
      by_cases hcond : t < (leg1.fairWinPct + c.fairWinPct) / 2 ∧ leg1.team ≠ c.team
      · rw [if_pos hcond] at h'
        obtain ⟨rfl, rfl⟩ := Prod.mk.inj (Option.some.inj h')
        exact hcond
      · rw [if_neg hcond] at h'
        exact absurd h' (by simp)
    · rw [hrec] at h
      have h' : some (l2, c :: r2) = some (leg2, rest) := h
      obtain ⟨rfl, rfl⟩ := Prod.mk.inj (Option.some.inj h')
      exact ih l2 r2 hrec

theorem greedyLoop_mem (t : ℚ) :
    ∀ (fuel : ℕ) (pool : List Candidate) (s : Slip), s ∈ greedyLoop t fuel pool →
      ∃ l1 l2 : Candidate,
        (t < (l1.fairWinPct + l2.fairWinPct) / 2 ∧ l1.team ≠ l2.team) ∧
        s = pairSlip t l1 l2 := by
  intro fuel
  induction fuel with
  | zero => intro pool s h; simp [greedyLoop] at h
  | succ n ih =>
    intro pool s h
    match pool with
    | [] => simp [greedyLoop] at h
    | leg1 :: rest =>
      rw [greedyLoop] at h
      split at h
      · simp at h
      · rcases hrec : scanRev leg1 t rest with - | p
        · rw [hrec] at h
          exact ih rest s h
        · rw [hrec] at h
          rcases p with ⟨leg2, rest'⟩
          rcases List.mem_cons.mp h with rfl | hmem
          · exact ⟨leg1, leg2, scanRev_sound leg1 t rest leg2 rest' hrec, rfl⟩
          · exact ih rest' s hmem

/-! ## Combinations and strategy B -/

theorem combinations_length {α : Type} :
    ∀ (l : List α) (k : ℕ) (c : List α), c ∈ combinations k l → c.length = k := by
  intro l
  induction l with
  | nil =>
    intro k c h
    match k with
    | 0 => simp [combinations] at h; simp [h]
    | k + 1 => simp [combinations] at h
  | cons x xs ih =>
    intro k c h
    match k with
    | 0 => simp [combinations] at h; simp [h]
    | k + 1 =>
      rw [combinations] at h
      rcases List.mem_append.mp h with hl | hr
      · rcases List.mem_map.mp hl with ⟨c', hc', rfl⟩
        simpa using ih k c' hc'
      · exact ih (k + 1) c hr

/-- The acceptance test shared by strategies B and C (threshold, distinct
players, team diversity), as a proposition. -/
def comboAccepted (t : ℚ) (k : ℕ) (c : List Candidate) : Prop :=
  ¬ avgOf k c ≤ t ∧
  (c.map Candidate.player).dedup.length = k ∧
  ¬ (c.map Candidate.team).dedup.length < 2

theorem stratB_mem (t : ℚ) (k : ℕ) :
    ∀ (combos : List (List Candidate)) (e sl : ℕ) (res : List Slip) (s : Slip),
      stratB t k combos e sl = .ok res → s ∈ res →
      ∃ c ∈ combos, comboAccepted t k c ∧ s = mkSlip t k c := by
  intro combos
  induction combos with
  | nil =>
    intro e sl res s hres hs
    rw [stratB] at hres
    obtain rfl := Except.ok.inj hres
    simp at hs
  | cons combo rest ih =>
    intro e sl res s hres hs
    match e with
    | 0 =>
      rw [stratB] at hres
      obtain rfl := Except.ok.inj hres
      simp at hs
    | e + 1 =>
      rw [stratB] at hres
      split at hres
      · exact absurd hres (by simp)
      · rename_i hk0
        split at hres
        · rcases ih e sl res s hres hs with ⟨c, hc, hacc, hslip⟩
          exact ⟨c, List.mem_cons_of_mem _ hc, hacc, hslip⟩
        · split at hres
          · rcases ih e sl res s hres hs with ⟨c, hc, hacc, hslip⟩
            exact ⟨c, List.mem_cons_of_mem _ hc, hacc, hslip⟩
          · split at hres
            · rcases ih e sl res s hres hs with ⟨c, hc, hacc, hslip⟩
              exact ⟨c, List.mem_cons_of_mem _ hc, hacc, hslip⟩
            · rename_i havg hpl htm
              split at hres
              · obtain rfl := Except.ok.inj hres
                rcases List.mem_singleton.mp hs with rfl
                exact ⟨combo, List.mem_cons_self _ _,
                  ⟨havg, by omega, htm⟩, rfl⟩
              · rcases hmap : stratB t k rest e (sl - 1) with err | res'
                · rw [hmap] at hres; exact absurd hres (by simp [Except.map])
                · rw [hmap] at hres
                  simp only [Except.map] at hres
                  obtain rfl := Except.ok.inj hres
                  rcases List.mem_cons.mp hs with rfl | hmem
                  · exact ⟨combo, List.mem_cons_self _ _,
                      ⟨havg, by omega, htm⟩, rfl⟩
                  · rcases ih e (sl - 1) res' s hmap hmem with ⟨c, hc, hacc, hslip⟩
                    exact ⟨c, List.mem_cons_of_mem _ hc, hacc, hslip⟩

theorem stratB_ok (t : ℚ) (k : ℕ) (hk : k ≠ 0) :
    ∀ (combos : List (List Candidate)) (e sl : ℕ),
      ∃ res, stratB t k combos e sl = .ok res := by
  intro combos
  induction combos with
  | nil => intro e sl; exact ⟨[], by rw [stratB]⟩
  | cons combo rest ih =>
    intro e sl
    match e with
    | 0 => exact ⟨[], by rw [stratB]⟩
    | e + 1 =>
      rw [stratB]
      rw [if_neg hk]
      split
      · exact ih e sl
      · split
        · exact ih e sl
        · split
          · exact ih e sl
          · split
            · exact ⟨_, rfl⟩
            · rcases ih e (sl - 1) with ⟨res, hres⟩
              exact ⟨_, by rw [hres]; rfl⟩

theorem stratB_length (t : ℚ) (k : ℕ) :
    ∀ (combos : List (List Candidate)) (e sl : ℕ) (res : List Slip),
      1 ≤ sl → stratB t k combos e sl = .ok res → res.length ≤ sl := by
  intro combos
  induction combos with
  | nil =>
    intro e sl res hsl hres
    rw [stratB] at hres
    obtain rfl := Except.ok.inj hres
    simp
  | cons combo rest ih =>
    intro e sl res hsl hres
    match e with
    | 0 =>
      rw [stratB] at hres
      obtain rfl := Except.ok.inj hres
      simp
    | e + 1 =>
      rw [stratB] at hres
      split at hres
      · exact absurd hres (by simp)
      · split at hres
        · exact ih e sl res hsl hres
        · split at hres
          · exact ih e sl res hsl hres
          · split at hres
            · exact ih e sl res hsl hres
            · split at hres
              · obtain rfl := Except.ok.inj hres
                simpa using hsl
              · rename_i hcap
                rcases hmap : stratB t k rest e (sl - 1) with err | res'
                · rw [hmap] at hres; exact absurd hres (by simp [Except.map])
                · rw [hmap] at hres
                  simp only [Except.map] at hres
                  obtain rfl := Except.ok.inj hres
                  have := ih e (sl - 1) res' (by omega) hmap
                  simp only [List.length_cons]
                  omega

theorem stratB_take (t : ℚ) (k : ℕ) :
    ∀ (combos : List (List Candidate)) (e sl : ℕ),
      stratB t k combos e sl = stratB t k (combos.take e) e sl := by
  intro combos
  induction combos with
  | nil => intro e sl; simp
  | cons combo rest ih =>
    intro e sl
    match e with
    | 0 => rw [stratB, List.take_zero, stratB]
    | e + 1 =>
      rw [List.take_succ_cons, stratB, stratB]
      split
      · rfl
      · split
        · exact ih e sl
        · split
          · exact ih e sl
          · split
            · exact ih e sl
            · split
              · rfl
              · rw [ih e (sl - 1)]

/-! ## Strategy C -/

theorem stratCLoop_mem (t : ℚ) (k : ℕ) :
    ∀ (draws : List (List Candidate)) (s : Slip), s ∈ stratCLoop t k draws →
      ∃ c ∈ draws, comboAccepted t k c ∧ s = mkSlip t k c := by
  intro draws
  induction draws with
  | nil => intro s h; simp [stratCLoop] at h
  | cons combo rest ih =>
    intro s h
    rw [stratCLoop] at h
    split at h
    · rcases ih s h with ⟨c, hc, hacc, hslip⟩
      exact ⟨c, List.mem_cons_of_mem _ hc, hacc, hslip⟩
    · split at h
      · rcases ih s h with ⟨c, hc, hacc, hslip⟩
        exact ⟨c, List.mem_cons_of_mem _ hc, hacc, hslip⟩
      · split at h
        · rcases ih s h with ⟨c, hc, hacc, hslip⟩
          exact ⟨c, List.mem_cons_of_mem _ hc, hacc, hslip⟩
        · rename_i havg hpl htm
          rcases List.mem_cons.mp h with rfl | hmem
          · exact ⟨combo, List.mem_cons_self _ _, ⟨havg, by omega, htm⟩, rfl⟩
          · rcases ih s hmem with ⟨c, hc, hacc, hslip⟩
            exact ⟨c, List.mem_cons_of_mem _ hc, hacc, hslip⟩

/-! ## The greedy non-overlap selection -/

theorem greedySelect_subset :
    ∀ (l : List Slip) (used : List String) (n : ℕ) (s : Slip),
      s ∈ greedySelect l used n → s ∈ l := by
  intro l
  induction l with
  | nil => intro used n s h; simp [greedySelect] at h
  | cons s0 rest ih =>
    intro used n s h
    rw [greedySelect] at h
    split at h
    · split at h
      · rcases List.mem_singleton.mp h with rfl
        exact List.mem_cons_self _ _
      · rcases List.mem_cons.mp h with rfl | hmem
        · exact List.mem_cons_self _ _
        · exact List.mem_cons_of_mem _ (ih _ _ s hmem)
    · split at h
      · simp at h
      · exact List.mem_cons_of_mem _ (ih _ _ s h)

theorem greedySelect_disjoint :
    ∀ (l : List Slip) (used : List String) (n : ℕ),
      (∀ s ∈ greedySelect l used n, ∀ i ∈ s.legIds, i ∉ used) ∧
      List.Pairwise legDisjoint (greedySelect l used n) := by
  intro l
  induction l with
  | nil => intro used n; simp [greedySelect]
  | cons s0 rest ih =>
    intro used n
    rw [greedySelect]
    split
    · rename_i hall
      have hfresh : ∀ i ∈ s0.legIds, i ∉ used := by
        intro i hi
        have := List.all_eq_true.mp hall i hi
        exact of_decide_eq_true this
      split
      · constructor
        · intro s hs i hi
          rcases List.mem_singleton.mp hs with rfl
          exact hfresh i hi
        · simp
      · rcases ih (used ++ s0.legIds) (n + 1) with ⟨ihFresh, ihPair⟩
        constructor
        · intro s hs i hi
          rcases List.mem_cons.mp hs with rfl | hmem
          · exact hfresh i hi
          · intro hin
            exact ihFresh s hmem i hi (List.mem_append_left _ hin)
        · refine List.pairwise_cons.mpr ⟨?_, ihPair⟩
          intro s hs i hi hin
          exact ihFresh s hs i hin (List.mem_append_right _ hi)
    · split
      · simp
      · exact ih used n

/-! ## The ranker -/

theorem mem_rankSlips {l : List Slip} {s : Slip} (h : s ∈ rankSlips l) : s ∈ l :=
  mem_sortByAvgDesc.mp (greedySelect_subset _ _ _ s h)

theorem rankSlips_disjoint (l : List Slip) :
    List.Pairwise legDisjoint (rankSlips l) :=
  (greedySelect_disjoint (sortByAvgDesc l) [] 0).2

/-! ## Soundness of the accepted-combination slips -/

theorem mkSlip_sound (t : ℚ) (k : ℕ) (c : List Candidate)
    (hacc : comboAccepted t k c) (hlen : c.length = k) :
    (mkSlip t k c).legs.length = k ∧
    t < avgOf k (mkSlip t k c).legs ∧
    (mkSlip t k c).avgWinPct = round2 (avgOf k (mkSlip t k c).legs) ∧
    (mkSlip t k c).totalEdge = round2 (avgOf k (mkSlip t k c).legs - t) ∧
    2 ≤ ((mkSlip t k c).legs.map Candidate.team).dedup.length ∧
    ((mkSlip t k c).legs.map Candidate.player).Nodup := by
  obtain ⟨havg, hpl, htm⟩ := hacc
  have hlegs : (mkSlip t k c).legs = c := rfl
  refine ⟨by rw [hlegs]; exact hlen, ?_, ?_, ?_, ?_, ?_⟩
  · rw [hlegs]; exact not_le.mp havg
  · rw [hlegs]; rfl
  · rw [hlegs]; rfl
  · rw [hlegs]; exact not_lt.mp htm
  · rw [hlegs]
    exact nodup_of_dedup_length _ (by rw [hpl, List.length_map, hlen])

/-- Every slip in a successful `get_slips` run with target size at least 2
was built from a combination that passed the threshold test before
rounding; teams are diverse, and (outside the greedy-pairing strategy)
players are pairwise distinct. -/
theorem getSlips_sound (table : List Row) (k : ℕ) (style : String)
    (draws : List (List Candidate)) (res : List Slip) (s : Slip)
    (hk : 2 ≤ k) (hd : ∀ d ∈ draws, d.length = k)
    (hres : getSlips table k style draws = .ok res) (hs : s ∈ res) :
    s.legs.length = k ∧
    thresholdFor style k < avgOf k s.legs ∧
    s.avgWinPct = round2 (avgOf k s.legs) ∧
    s.totalEdge = round2 (avgOf k s.legs - thresholdFor style k) ∧
    2 ≤ (s.legs.map Candidate.team).dedup.length ∧
    (¬ (k = 2 ∧ style = "power") → (s.legs.map Candidate.player).Nodup) := by
  simp only [getSlips] at hres
  split at hres
  · obtain rfl := Except.ok.inj hres
    simp at hs
  · split at hres
    · rename_i h1
      omega
    · split at hres
      · rename_i hA
        obtain ⟨rfl, rfl⟩ := hA
        obtain rfl := Except.ok.inj hres
        rw [rankSlips] at hs
        have hmem := greedySelect_subset _ _ _ s hs
        rw [mem_sortByAvgDesc, greedyPairs] at hmem
        obtain ⟨l1, l2, ⟨hlt, hne⟩, rfl⟩ := greedyLoop_mem _ _ _ s hmem
        have hlegs : (pairSlip (thresholdFor "power" 2) l1 l2).legs = [l1, l2] := rfl
        refine ⟨by rw [hlegs]; rfl, ?_, ?_, ?_, ?_, ?_⟩
        · rw [hlegs, avgOf_pair]; exact hlt
        · rw [hlegs, avgOf_pair]; rfl
        · rw [hlegs, avgOf_pair]; rfl
        · rw [hlegs]
          simp only [List.map_cons, List.map_nil]
          rw [dedup_pair_ne hne]
        · intro habs
          exact absurd ⟨rfl, rfl⟩ habs
      · split at hres
        · rcases hsb : stratB (thresholdFor style k) k
              (combinations k (sortByFairDesc (extractCandidates table)))
              3000000 2000 with err | raw
          · rw [hsb] at hres
            exact absurd hres (by simp [Except.map])
          · rw [hsb] at hres
            simp only [Except.map] at hres
            obtain rfl := Except.ok.inj hres
            obtain ⟨c, hc, hacc, rfl⟩ :=
              stratB_mem _ k _ _ _ _ s hsb (mem_rankSlips hs)
            have hlen := combinations_length _ k c hc
            obtain ⟨a1, a2, a3, a4, a5, a6⟩ := mkSlip_sound _ k c hacc hlen
            exact ⟨a1, a2, a3, a4, a5, fun _ => a6⟩
        · obtain rfl := Except.ok.inj hres
          have hmem := mem_rankSlips hs
          rw [stratC] at hmem
          split at hmem
          · simp at hmem
          · obtain ⟨c, hc, hacc, rfl⟩ := stratCLoop_mem _ k _ s hmem
            have hlen := hd c hc
            obtain ⟨a1, a2, a3, a4, a5, a6⟩ := mkSlip_sound _ k c hacc hlen
            exact ⟨a1, a2, a3, a4, a5, fun _ => a6⟩

/-- For any target size of at least 1, `get_slips` cannot fail. -/
theorem getSlips_isOk (table : List Row) (k : ℕ) (style : String)
    (draws : List (List Candidate)) (hk : 1 ≤ k) :
    ∃ res, getSlips table k style draws = .ok res := by
  simp only [getSlips]
  split
  · exact ⟨[], rfl⟩
  · split
    · exact ⟨_, rfl⟩
    · split
      · exact ⟨_, rfl⟩
      · split
        · obtain ⟨raw, hraw⟩ := stratB_ok (thresholdFor style k) k (by omega)
            (combinations k (sortByFairDesc (extractCandidates table))) 3000000 2000
          exact ⟨rankSlips raw, by rw [hraw]; rfl⟩
        · exact ⟨_, rfl⟩

/-! ## The odds normalizer -/

theorem getImplied_nonneg (o : ℤ) : 0 ≤ getImplied o := by
  unfold getImplied
  split
  · rename_i ho
    have : (0 : ℚ) < (o : ℚ) := by exact_mod_cast ho
    positivity
  · positivity

/-- C4: for any two American odds whose implied probabilities do not sum
to zero, `calculate_novig` returns a pair of fair probabilities summing to
one, each lying in the unit interval. -/
theorem c4_normalizer_roundtrip (o u : ℤ)
    (h : getImplied o + getImplied u ≠ 0) :
    (calculate_novig o u).1 + (calculate_novig o u).2 = 1 ∧
    0 ≤ (calculate_novig o u).1 ∧ (calculate_novig o u).1 ≤ 1 ∧
    0 ≤ (calculate_novig o u).2 ∧ (calculate_novig o u).2 ≤ 1 := by
  have hpo := getImplied_nonneg o
  have hpu := getImplied_nonneg u
  have hs : 0 < getImplied o + getImplied u :=
    lt_of_le_of_ne (by linarith) (Ne.symm h)
  simp only [calculate_novig, if_neg h]
  refine ⟨?_, ?_, ?_, ?_, ?_⟩
  · field_simp
  · exact div_nonneg hpo hs.le
  · rw [div_le_one hs]; linarith
  · exact div_nonneg hpu hs.le
  · rw [div_le_one hs]; linarith

/-- C4 witness: the round-trip property at the concrete odds `(-110, -110)`. -/
theorem c4_normalizer_roundtrip_witness :
    (calculate_novig (-110) (-110)).1 + (calculate_novig (-110) (-110)).2 = 1 ∧
    0 ≤ (calculate_novig (-110) (-110)).1 ∧ (calculate_novig (-110) (-110)).1 ≤ 1 ∧
    0 ≤ (calculate_novig (-110) (-110)).2 ∧ (calculate_novig (-110) (-110)).2 ≤ 1 :=
  c4_normalizer_roundtrip (-110) (-110) (by norm_num [getImplied])

/-- C9: when both implied probabilities are zero, `calculate_novig`
returns `(0.0, 0.0)` instead of raising a division error. -/
theorem c9_degenerate_odds (o u : ℤ) (ho : getImplied o = 0)
    (hu : getImplied u = 0) : calculate_novig o u = (0, 0) := by
  simp [calculate_novig, ho, hu]

/-- C9 witness: zero odds on both sides give zero implied probabilities
and the `(0, 0)` result. -/
theorem c9_degenerate_odds_witness : calculate_novig 0 0 = (0, 0) :=
  c9_degenerate_odds 0 0 (by norm_num [getImplied]) (by norm_num [getImplied])

/-! ## The candidate extractor -/

/-- C5: every extracted candidate has `lineDiff ≤ 0.5` and
`fairWinPct > 53.5`, the OVER side is checked against the admission floor
first, and a row on which neither side qualifies yields no candidate. -/
theorem c5_admission_filter (row : Row) :
    (∀ c : Candidate, candidateOfRow row = some c →
      c.lineDiff ≤ 0.5 ∧ (53.5 : ℚ) < c.fairWinPct ∧
      (((53.5 : ℚ) < row.fairOver ∧ c.betDirection = "OVER" ∧
          c.fairWinPct = row.fairOver) ∨
       (¬ (53.5 : ℚ) < row.fairOver ∧ (53.5 : ℚ) < row.fairUnder ∧
          c.betDirection = "UNDER" ∧ c.fairWinPct = row.fairUnder))) ∧
    (¬ (53.5 : ℚ) < row.fairOver → ¬ (53.5 : ℚ) < row.fairUnder →
      candidateOfRow row = none) := by
  constructor
  · intro c hc
    rw [candidateOfRow] at hc
    rcases hfd : row.fdLine with - | fd
    · rw [hfd] at hc
      exact absurd hc (by simp)
    · rcases hpp : row.ppLine with - | pp
      · rw [hfd, hpp] at hc
        exact absurd hc (by simp)
      · rw [hfd, hpp] at hc
        have hc' : (if |fd - pp| ≤ 0.5 then
            (if minCandidateProb < row.fairOver then
              some (mkCandidate row fd pp "OVER" row.fairOver)
             else if minCandidateProb < row.fairUnder then
              some (mkCandidate row fd pp "UNDER" row.fairUnder)
             else none)
            else none) = some c := hc
        by_cases h05 : |fd - pp| ≤ 0.5
        · rw [if_pos h05] at hc'
          by_cases hov : minCandidateProb < row.fairOver
          · rw [if_pos hov] at hc'
            obtain rfl := Option.some.inj hc'
            exact ⟨h05, hov, Or.inl ⟨hov, rfl, rfl⟩⟩
          · rw [if_neg hov] at hc'
            by_cases hun : minCandidateProb < row.fairUnder
            · rw [if_pos hun] at hc'
              obtain rfl := Option.some.inj hc'
              exact ⟨h05, hun, Or.inr ⟨hov, hun, rfl, rfl⟩⟩
            · rw [if_neg hun] at hc'
              exact absurd hc' (by simp)
        · rw [if_neg h05] at hc'
          exact absurd hc' (by simp)
  · intro hov hun
    have hov' : ¬ minCandidateProb < row.fairOver := hov
    have hun' : ¬ minCandidateProb < row.fairUnder := hun
    rw [candidateOfRow]
    rcases hfd : row.fdLine with - | fd
    · rfl
    · rcases hpp : row.ppLine with - | pp
      · rfl
      · show (if |fd - pp| ≤ 0.5 then
            (if minCandidateProb < row.fairOver then
              some (mkCandidate row fd pp "OVER" row.fairOver)
             else if minCandidateProb < row.fairUnder then
              some (mkCandidate row fd pp "UNDER" row.fairUnder)
             else none)
            else none) = none
        by_cases h05 : |fd - pp| ≤ 0.5
        · rw [if_pos h05, if_neg hov', if_neg hun']
        · rw [if_neg h05]

unseal Rat.add Rat.mul Rat.inv Rat.sub Rat.ofScientific in
/-- C5 witness: the admission-filter facts at the concrete row `wRowA` and
its candidate `wCandA`. -/
theorem c5_admission_filter_witness :
    wCandA.lineDiff ≤ 0.5 ∧ (53.5 : ℚ) < wCandA.fairWinPct ∧
    (((53.5 : ℚ) < wRowA.fairOver ∧ wCandA.betDirection = "OVER" ∧
        wCandA.fairWinPct = wRowA.fairOver) ∨
     (¬ (53.5 : ℚ) < wRowA.fairOver ∧ (53.5 : ℚ) < wRowA.fairUnder ∧
        wCandA.betDirection = "UNDER" ∧ wCandA.fairWinPct = wRowA.fairUnder)) :=
  (c5_admission_filter wRowA).1 wCandA (by decide)

/-! ## Threshold invariant (C1) -/

unseal Rat.add Rat.mul Rat.inv Rat.sub Rat.ofScientific in
/-- C1 counterexample: on `c1Table`, a `(2, "flex")` search returns a slip
whose rounded `avgWinPct` equals the threshold `54.21` exactly, so the
rounded average does not strictly exceed the threshold. -/
theorem c1_counterexample :
    ¬ (∀ s ∈ okResult (getSlips c1Table 2 "flex" []),
        thresholdFor "flex" 2 < s.avgWinPct) := by
  decide

/-- C1 (amended): for every slip returned by `get_slips` with target size
at least 2, the unrounded mean of the member fair probabilities strictly
exceeds `threshold(style, size)` (table lookup with default `54.21`), and
the stored `avgWinPct` — that mean rounded to 2 decimals — is at least the
threshold, though it may equal it. -/
theorem c1_threshold_amended (table : List Row) (k : ℕ) (style : String)
    (draws : List (List Candidate)) (res : List Slip) (s : Slip)
    (hk : 2 ≤ k) (hd : ∀ d ∈ draws, d.length = k)
    (hres : getSlips table k style draws = .ok res) (hs : s ∈ res) :
    thresholdFor style k ≤ s.avgWinPct ∧
    thresholdFor style k < avgOf k s.legs ∧
    s.avgWinPct = round2 (avgOf k s.legs) := by
  obtain ⟨-, hlt, heq, -, -, -⟩ :=
    getSlips_sound table k style draws res s hk hd hres hs
  obtain ⟨z, hz⟩ := thresholdFor_centi style k
  refine ⟨?_, hlt, heq⟩
  rw [heq, hz]
  exact round2_ge z _ (by rw [← hz]; exact hlt)

unseal Rat.add Rat.mul Rat.inv Rat.sub Rat.ofScientific in
/-- C1 witness: the amended threshold facts at the concrete `(2, "flex")`
run on `wTable`. -/
theorem c1_threshold_amended_witness :
    thresholdFor "flex" 2 ≤ wSlipFlex2.avgWinPct ∧
    thresholdFor "flex" 2 < avgOf 2 wSlipFlex2.legs ∧
    wSlipFlex2.avgWinPct = round2 (avgOf 2 wSlipFlex2.legs) :=
  c1_threshold_amended wTable 2 "flex" [] [wSlipFlex2] wSlipFlex2
    (by norm_num) (by simp) (by decide) (List.mem_singleton.mpr rfl)

/-! ## Slip validity (C2) -/

unseal Rat.add Rat.mul Rat.inv Rat.sub Rat.ofScientific in
/-- C2 counterexample: the greedy pairing strategy checks only teams, so a
player listed under two different team strings is paired with themselves —
the returned slip's member player names are not pairwise distinct. -/
theorem c2_counterexample :
    ¬ (∀ s ∈ okResult (getSlips c2Table 2 "power" []),
        (s.legs.map Candidate.player).Nodup) := by
  decide

/-- C2 (amended): every slip returned with target size at least 2 spans at
least two distinct teams; member player names are pairwise distinct for
the exhaustive and randomized strategies, but the greedy pairing strategy
(size 2, style "power") checks only teams, not player names. -/
theorem c2_validity_amended (table : List Row) (k : ℕ) (style : String)
    (draws : List (List Candidate)) (res : List Slip) (s : Slip)
    (hk : 2 ≤ k) (hd : ∀ d ∈ draws, d.length = k)
    (hres : getSlips table k style draws = .ok res) (hs : s ∈ res) :
    2 ≤ (s.legs.map Candidate.team).dedup.length ∧
    (¬ (k = 2 ∧ style = "power") → (s.legs.map Candidate.player).Nodup) := by
  obtain ⟨-, -, -, -, h5, h6⟩ :=
    getSlips_sound table k style draws res s hk hd hres hs
  exact ⟨h5, h6⟩

unseal Rat.add Rat.mul Rat.inv Rat.sub Rat.ofScientific in
/-- C2 witness: team diversity and player distinctness at the concrete
`(2, "flex")` run on `wTable`. -/
theorem c2_validity_amended_witness :
    2 ≤ (wSlipFlex2.legs.map Candidate.team).dedup.length ∧
    (¬ ((2 : ℕ) = 2 ∧ "flex" = "power") →
      (wSlipFlex2.legs.map Candidate.player).Nodup) :=
  c2_validity_amended wTable 2 "flex" [] [wSlipFlex2] wSlipFlex2
    (by norm_num) (by simp) (by decide) (List.mem_singleton.mpr rfl)

/-! ## Disjointness of the final list (C3) -/

unseal Rat.add Rat.mul Rat.inv Rat.sub Rat.ofScientific in
/-- C3 counterexample: two rows with the same player and prop type yield
two candidates with the same id; the size-1 path applies no
deduplication, so the id appears in two returned slips' leg-id sets. -/
theorem c3_counterexample :
    ¬ List.Pairwise legDisjoint (okResult (getSlips c3Table 1 "props" [])) := by
  decide

/-- C3 (amended): for every target size of at least 2 the final ranked
list is leg-disjoint — no candidate id appears in more than one returned
slip's leg-id set.  The size-1 path returns the top candidates without any
deduplication, so it can repeat an id. -/
theorem c3_disjointness_amended (table : List Row) (k : ℕ) (style : String)
    (draws : List (List Candidate)) (res : List Slip) (hk : 2 ≤ k)
    (hres : getSlips table k style draws = .ok res) :
    List.Pairwise legDisjoint res := by
  simp only [getSlips] at hres
  split at hres
  · obtain rfl := Except.ok.inj hres
    simp
  · split at hres
    · omega
    · split at hres
      · obtain rfl := Except.ok.inj hres
        exact rankSlips_disjoint _
      · split at hres
        · rcases hsb : stratB (thresholdFor style k) k
              (combinations k (sortByFairDesc (extractCandidates table)))
              3000000 2000 with err | raw
          · rw [hsb] at hres
            exact absurd hres (by simp [Except.map])
          · rw [hsb] at hres
            simp only [Except.map] at hres
            obtain rfl := Except.ok.inj hres
            exact rankSlips_disjoint _
        · obtain rfl := Except.ok.inj hres
          exact rankSlips_disjoint _

unseal Rat.add Rat.mul Rat.inv Rat.sub Rat.ofScientific in
/-- C3 witness: leg-disjointness of the concrete `(2, "flex")` result on
`wTable`. -/
theorem c3_disjointness_amended_witness :
    List.Pairwise legDisjoint [wSlipFlex2] :=
  c3_disjointness_amended wTable 2 "flex" [] [wSlipFlex2]
    (by norm_num) (by decide)

/-! ## Total safety of the pipeline (C6) -/

unseal Rat.add Rat.mul Rat.inv Rat.sub Rat.ofScientific in
/-- C6 counterexample: the dashboard normalizes unknown styles and
unparseable sizes, but an integer size of `0` passes through unchanged and
reaches the brute-force strategy, whose mean computation divides by the
target size — `get_slips` raises `ZeroDivisionError` on a nonempty pool. -/
theorem c6_counterexample :
    (dashboard wTable "power" (some 0) []).toOption = none := by
  decide

/-- C6 (amended): for every table, any style argument, and every requested
size of at least 1 (an unparseable size falls back to 6), the pipeline
returns a result list and never raises; but a requested integer size of 0
is not normalized and can raise a division error (see the
counterexample). -/
theorem c6_no_crash_amended (table : List Row) (styleArg : String)
    (sizeParsed : Option ℕ) (draws : List (List Candidate))
    (h : 1 ≤ sizeParsed.getD 6) :
    ∃ res, dashboard table styleArg sizeParsed draws = .ok res := by
  simp only [dashboard]
  exact getSlips_isOk table _ _ draws h

/-- C6 witness: a successful dashboard run at the concrete size 2. -/
theorem c6_no_crash_amended_witness :
    ∃ res, dashboard wTable "Power" (some 2) [] = .ok res :=
  c6_no_crash_amended wTable "Power" (some 2) [] (by decide)

/-! ## The size-1 fallback view (C7) -/

/-- C7: a size-1 request returns exactly `min(51, pool size)` single-leg
pseudo-slips, sorted descending by fair win probability, each flagged as a
fallback with `avgWinPct` equal to its candidate's `fairWinPct`, and no
threshold filter is applied (every one of the top `min(51, pool size)`
candidates appears, whatever its probability). -/
theorem c7_size_one_view (table : List Row) (style : String)
    (draws : List (List Candidate)) (res : List Slip)
    (hres : getSlips table 1 style draws = .ok res) :
    res.length = min 51 (extractCandidates table).length ∧
    List.Sorted (fun s1 s2 : Slip => s2.avgWinPct ≤ s1.avgWinPct) res ∧
    ∀ s ∈ res, ∃ p : Candidate, s.legs = [p] ∧ s.avgWinPct = p.fairWinPct ∧
      s.totalEdge = p.edge ∧ s.legIds = [p.id] ∧ s.isFallback = true := by
  simp only [getSlips] at hres
  split at hres
  · rename_i hemp
    obtain rfl := Except.ok.inj hres
    have h0 : extractCandidates table = [] := List.isEmpty_iff.mp hemp
    simp [h0]
  · split at hres
    · obtain rfl := Except.ok.inj hres
      refine ⟨?_, ?_, ?_⟩
      · rw [List.length_map, List.length_take, length_sortByFairDesc]
      · have hsorted := sortByFairDesc_sorted (extractCandidates table)
        have htake := List.Pairwise.sublist
          (List.take_sublist 51 (sortByFairDesc (extractCandidates table))) hsorted
        exact List.Pairwise.map fallbackSlip (fun a b hab => hab) htake
      · intro s hs
        obtain ⟨p, hp, rfl⟩ := List.mem_map.mp hs
        exact ⟨p, rfl, rfl, rfl, rfl, rfl⟩
    · rename_i h1
      exact absurd trivial h1

unseal Rat.add Rat.mul Rat.inv Rat.sub Rat.ofScientific in
/-- C7 witness: the size-1 view of the concrete two-candidate pool. -/
theorem c7_size_one_view_witness :
    [fallbackSlip wCandA, fallbackSlip wCandB].length =
      min 51 (extractCandidates wTable).length ∧
    List.Sorted (fun s1 s2 : Slip => s2.avgWinPct ≤ s1.avgWinPct)
      [fallbackSlip wCandA, fallbackSlip wCandB] :=
  ⟨(c7_size_one_view wTable "props" []
      [fallbackSlip wCandA, fallbackSlip wCandB] (by decide)).1,
   (c7_size_one_view wTable "props" []
      [fallbackSlip wCandA, fallbackSlip wCandB] (by decide)).2.1⟩

/-! ## Strategy B safety bounds (C8) -/

/-- C8: the brute-force strategy's run is determined by the first
3,000,000 combinations in pool order, and a successful run collects at
most 2,000 slips. -/
theorem c8_strategyB_bounds (t : ℚ) (k : ℕ) (combos : List (List Candidate))
    (res : List Slip) (hres : stratB t k combos 3000000 2000 = .ok res) :
    res.length ≤ 2000 ∧
    stratB t k combos 3000000 2000 =
      stratB t k (combos.take 3000000) 3000000 2000 :=
  ⟨stratB_length t k combos 3000000 2000 res (by norm_num) hres,
   stratB_take t k combos 3000000 2000⟩

/-- C8 witness: the bounds at a concrete (empty) combination list. -/
theorem c8_strategyB_bounds_witness :
    ([] : List Slip).length ≤ 2000 ∧
    stratB 0 2 [] 3000000 2000 =
      stratB 0 2 (List.take 3000000 []) 3000000 2000 :=
  c8_strategyB_bounds 0 2 [] [] rfl

/-! ## Determinism for small sizes (C10) -/

/-- C10: for any fixed table and any target size between 1 and 4, the
result of `get_slips` does not depend on the random draws — only the
Monte-Carlo strategy used for sizes of 5 and above consumes randomness. -/
theorem c10_determinism_small_sizes (table : List Row) (k : ℕ)
    (style : String) (d1 d2 : List (List Candidate))
    (h1 : 1 ≤ k) (h4 : k ≤ 4) :
    getSlips table k style d1 = getSlips table k style d2 := by
  simp only [getSlips]
  split
  · rfl
  · split
    · rfl
    · split
      · rfl
      · split
        · rfl
        · omega

unseal Rat.add Rat.mul Rat.inv Rat.sub Rat.ofScientific in
/-- C10 witness: the concrete `(2, "flex")` run is unchanged when the
draws differ. -/
theorem c10_determinism_small_sizes_witness :
    getSlips wTable 2 "flex" [[wCandA, wCandB]] = getSlips wTable 2 "flex" [] :=
  c10_determinism_small_sizes wTable 2 "flex" [[wCandA, wCandB]] []
    (by norm_num) (by norm_num)
